import Mathlib

/-!
Shallow embedding of `src/time_backup.py` (the TimeBackup plugin core):
the interval parser `parse_interval`, the file-name sanitizer
`format_file_name`, the rule-driven path selector `parse_paths`, the
throttled progress callback `send_now`, the archive-building loop of
`Timer.package_zip` together with its destination-collision loop, and the
control flow of `Timer.create_backup` recorded as an effect summary.

Python machine-level details are modelled as follows: Python integers are
unbounded, so `Nat` is used directly; `int(all / 8)` on non-negative ints
is floor division (exact for the magnitudes involved), modelled as `Nat`
division; `str.replace` with a single-character pattern and replacement is
a per-character map; `pathlib.Path` values are modelled as their string
representations; the filesystem seen by `parse_paths` is an abstract
structure giving `is_file` answers and `rglob` expansions.
-/

/-! ### IntervalParser: `parse_interval` (src/time_backup.py lines 103-119) -/

/-- The `time_map` dict `{"s": 1, "m": 60, "h": 3600, "d": 3600 * 24}`. -/
def timeMap (c : Char) : Option Nat :=
  if c = 's' then some 1
  else if c = 'm' then some 60
  else if c = 'h' then some 3600
  else if c = 'd' then some (3600 * 24)
  else none

/-- Value of the accumulated digit run: `int(digit or 1)`; the empty run
defaults to `1`, a non-empty run is read as a decimal numeral. -/
def digitVal (d : List Char) : Nat :=
  if d.isEmpty then 1 else d.foldl (fun acc c => acc * 10 + (c.toNat - '0'.toNat)) 0

/-- One iteration of the `for s in str_interval + " "` loop: digits extend
the run, a unit character folds the run into the result with its
multiplier, every other character is skipped. -/
def piStep (st : List Char × Nat) (c : Char) : List Char × Nat :=
  if c.isDigit then (st.1 ++ [c], st.2)
  else
    match timeMap c with
    | some k => ([], st.2 + digitVal st.1 * k)
    | none => st

/-- The `if digit: result, _ = add()` epilogue: finalize a leftover digit
run with multiplier `time_map.get("", 1) = 1`. -/
def finishParse (st : List Char × Nat) : Nat :=
  if st.1.isEmpty then st.2 else st.2 + digitVal st.1 * 1

/-- `parse_interval` on the character list of the input: run the loop over
the input plus the trailing `" "`, then the epilogue. -/
def parse_interval_chars (cs : List Char) : Nat :=
  finishParse ((cs ++ [' ']).foldl piStep ([], 0))

/-- `parse_interval(str_interval)`. -/
def parse_interval (s : String) : Nat :=
  parse_interval_chars s.data

/-! ### `format_file_name` (src/time_backup.py lines 122-126) -/

/-- The characters of the literal `'/\\:*?"|<>'`, in iteration order. -/
def badChars : List Char := ['/', '\\', ':', '*', '?', '"', '|', '<', '>']

/-- `file_name.replace(c, "_")` for a single character: a per-character
substitution. -/
def replaceChar (cs : List Char) (c : Char) : List Char :=
  cs.map fun x => if x = c then '_' else x

/-- `format_file_name`: substitute each reserved character by `"_"`, one
reserved character at a time. -/
def format_file_name (s : String) : String :=
  ⟨badChars.foldl replaceChar s.data⟩

/-! ### Throttled progress callback `send_now`
(src/time_backup.py lines 266-272).  `send_now(all, now)` evaluates
`now % int(all / 8) == 0 or all == now`; when `int(all / 8) == 0` the
modulo raises `ZeroDivisionError` before the `or` can short-circuit,
modelled by `none`.  `some b` means the call returns normally and emits a
status line exactly when `b` is true. -/

def send_now (all now : Nat) : Option Bool :=
  if all / 8 = 0 then none
  else some (now % (all / 8) == 0 || all == now)

/-! ### Destination-collision loop of `Timer.package_zip`
(src/time_backup.py lines 180-183).

    path, index = zip_path / f"{base_filename}.{zip_type}", 1
    while path.exists():
        index += 1
        path.with_name(f"{base_filename}.{index}.{zip_type}")

The `with_name` result is discarded, so `path` never changes inside the
loop.  The loop is modelled with explicit fuel: `none` means the loop is
still running after `fuel` iterations, `some (path, index)` means it
exited with those values. -/

def collisionLoop (fuel : Nat) (pathExists : String → Bool) (path : String)
    (index : Nat) : Option (String × Nat) :=
  match fuel with
  | 0 => none
  | n + 1 =>
    if pathExists path then
      -- body: index += 1; the freshly computed disambiguated name is discarded
      collisionLoop n pathExists path (index + 1)
    else
      some (path, index)

/-! ### PathSelector: `parse_paths` (src/time_backup.py lines 79-100).

The filesystem is abstracted to the two queries the function makes:
`Path(x).is_file()` and `base_path.rglob(pattern)` (the latter returning
matches in traversal order).  Paths and patterns are strings. -/

structure FS where
  is_file : String → Bool
  rglob : String → List String

/-- `pass_path = rule.startswith("!")`: Python `startswith` with a
one-character pattern tests the first character of the string. -/
def pass_path (rule : String) : Bool :=
  match rule.data with
  | [] => false
  | c :: _ => c = '!'

/-- The paths one rule touches.  Note the source checks
`Path(rule[1:]).is_file()` — the first character is stripped for *every*
rule, include rules included — while the `rglob` pattern strips the
leading character only for exclude rules. -/
def ruleMatches (fs : FS) (rule : String) : List String :=
  let stripped := rule.drop 1
  if fs.is_file stripped then [stripped]
  else fs.rglob (if pass_path rule then stripped else rule)

/-- Processing of one rule: an exclude rule (leading `"!"`) removes each
matched path via `paths.remove(path)` (first occurrence, guarded by
`path in paths`, i.e. `List.erase`); an include rule appends each matched
path unconditionally. -/
def applyRule (fs : FS) (paths : List String) (rule : String) : List String :=
  if pass_path rule then (ruleMatches fs rule).foldl List.erase paths
  else paths ++ ruleMatches fs rule

/-- `parse_paths(base_path, rules)`: fold the rules, in order, over an
initially empty running list. -/
def parse_paths (fs : FS) (rules : List String) : List String :=
  rules.foldl (applyRule fs) []

/-! ### ArchiveBuilder loop of `Timer.package_zip`
(src/time_backup.py lines 192-207).

Each file's add/write attempt is abstracted to its outcome: success,
`PermissionError` (warning broadcast, file skipped), or another exception
(logged, file skipped).  The progress callback, when present, is invoked
*after* the per-file `try` block with arguments `(all_files, index + 1)`;
a callback that raises therefore propagates out of the loop, and
`f.close()` — which runs only after the loop — is skipped.  `ZipState`
records the observable effects; `Except.error` is an escaping exception
carrying the state at that point, `Except.ok` a normal return. -/

inductive FileRes
  | ok
  | permError
  | otherError
deriving DecidableEq, Repr

structure ZipState where
  entries : List Nat
  permWarnings : List Nat
  logged : List Nat
  cbCalls : List (Nat × Nat)
  closed : Bool
deriving DecidableEq, Repr

def zipGo (allFiles : Nat) (cb : Option (Nat → Nat → Bool)) :
    Nat → List FileRes → ZipState → Except ZipState ZipState
  | _, [], st => .ok { st with closed := true }
  | i, r :: rest, st =>
    let st1 : ZipState :=
      match r with
      | .ok => { st with entries := st.entries ++ [i] }
      | .permError => { st with permWarnings := st.permWarnings ++ [i] }
      | .otherError => { st with logged := st.logged ++ [i] }
    match cb with
    | none => zipGo allFiles cb (i + 1) rest st1
    | some f =>
      let st2 := { st1 with cbCalls := st1.cbCalls ++ [(allFiles, i + 1)] }
      if f allFiles (i + 1) then zipGo allFiles cb (i + 1) rest st2
      else .error st2

/-- The `for index, file in enumerate(files)` loop of `package_zip`,
followed by `f.close()`. -/
def package_zip_loop (files : List FileRes) (cb : Option (Nat → Nat → Bool)) :
    Except ZipState ZipState :=
  zipGo files.length cb 0 files
    { entries := [], permWarnings := [], logged := [], cbCalls := [], closed := false }

/-! ### `Timer.create_backup` control flow (src/time_backup.py lines 232-290).

The run's branching is controlled by five booleans: whether `_backup_ing`
is already set, whether the command came with a `source`, whether the
config is enabled, whether `_saved_game_event.wait(...)` returns before
the timeout, and whether the packaging `try` block completes without an
exception.  `RunEffects` records, for one invocation, the externally
visible effects: the rejection reply, how many `save-off`/`save-on`
commands are executed, whether `_saved_game_event.clear()` ran, how many
times `creating_backup.release()` ran, the final `_backup_ing` value, and
the outcome.  Note `creating_backup.acquire(blocking=False)`'s return
value is ignored by the source, and the timeout branch `return`s *before*
the `try`/`finally`, so the `finally` block does not run there. -/

inductive Outcome
  | rejected
  | disabled
  | timeout
  | completed
  | failed
deriving DecidableEq, Repr

structure RunEffects where
  sentAlreadyRunning : Bool
  enteredRun : Bool
  saveOff : Nat
  saveOn : Nat
  eventCleared : Bool
  lockReleased : Nat
  backupIngFinal : Bool
  outcome : Outcome
deriving DecidableEq, Repr

def create_backup (backupIng enabled hasSource ackOk packageOk : Bool) : RunEffects :=
  if backupIng && hasSource then
    -- `if self._backup_ing and source:` → reply and return, nothing mutated
    { sentAlreadyRunning := true, enteredRun := false, saveOff := 0, saveOn := 0,
      eventCleared := false, lockReleased := 0, backupIngFinal := backupIng,
      outcome := .rejected }
  else if !enabled then
    -- `if not self.config.enabled: return`
    { sentAlreadyRunning := false, enteredRun := false, saveOff := 0, saveOn := 0,
      eventCleared := false, lockReleased := 0, backupIngFinal := backupIng,
      outcome := .disabled }
  else if !ackOk then
    -- acquire (result ignored); _backup_ing = True; save-off; save-all flush;
    -- event.clear(); wait times out → broadcast, _backup_ing = False, return.
    -- No save-on and no release: the `finally` block has not been entered.
    { sentAlreadyRunning := false, enteredRun := true, saveOff := 1, saveOn := 0,
      eventCleared := true, lockReleased := 0, backupIngFinal := false,
      outcome := .timeout }
  else if packageOk then
    -- packaging succeeds; `finally` releases the lock and executes save-on
    { sentAlreadyRunning := false, enteredRun := true, saveOff := 1, saveOn := 1,
      eventCleared := true, lockReleased := 1, backupIngFinal := false,
      outcome := .completed }
  else
    -- packaging raises; `except` logs and broadcasts, `finally` still runs
    { sentAlreadyRunning := false, enteredRun := true, saveOff := 1, saveOn := 1,
      eventCleared := true, lockReleased := 1, backupIngFinal := false,
      outcome := .failed }

/-! ### Grammar-side helper definitions used to state the interval-parser
claims: a unit term is an optional digit run followed by a unit
character. -/

structure Term where
  digits : List Char
  unit : Char

/-- Well-formed term: the digit run is all digits, the unit character has
an entry in `time_map`. -/
def TermWF (t : Term) : Prop :=
  (∀ c ∈ t.digits, c.isDigit = true) ∧ (timeMap t.unit).isSome = true

instance (t : Term) : Decidable (TermWF t) := by
  unfold TermWF
  infer_instance

/-- The characters of a term. -/
def termChars (t : Term) : List Char := t.digits ++ [t.unit]

/-- The value of a term: digit run (default 1) times the unit multiplier. -/
def termVal (t : Term) : Nat := digitVal t.digits * (timeMap t.unit).getD 1

/-- Concatenation of a list of terms. -/
def joinTerms (ts : List Term) : List Char := (ts.map termChars).flatten

/-- Sum of the values of a list of terms. -/
def sumTermVals (ts : List Term) : Nat := (ts.map termVal).sum

/-- A character the parser reacts to: a digit or a unit character; all
others are skipped. -/
def relevantChar (c : Char) : Bool := c.isDigit || (timeMap c).isSome

/-- A string that is one complete unit term. -/
def IsTerm (s : String) : Prop := ∃ t : Term, TermWF t ∧ s.data = termChars t

/-- Pointwise form of `format_file_name`: reserved characters become
underscores, everything else is untouched. -/
def sanitize (c : Char) : Char := if c ∈ badChars then '_' else c

/-- Sequential single-character substitutions, as one function on a
character. -/
def chainSubst (bs : List Char) (x : Char) : Char :=
  bs.foldl (fun y c => if y = c then '_' else y) x

/-- Expected archive entries of the `package_zip` loop: the indices of the
files whose add/write attempt succeeds. -/
def entriesOf : Nat → List FileRes → List Nat
  | _, [] => []
  | i, .ok :: rest => i :: entriesOf (i + 1) rest
  | i, .permError :: rest => entriesOf (i + 1) rest
  | i, .otherError :: rest => entriesOf (i + 1) rest

/-- Expected progress-callback invocations of the `package_zip` loop:
`(all_files, index + 1)` once per attempted file. -/
def callsOf (allFiles : Nat) : Nat → List FileRes → List (Nat × Nat)
  | _, [] => []
  | i, _ :: rest => (allFiles, i + 1) :: callsOf allFiles (i + 1) rest

/-- Concatenation, in rule order, of the matches of all include rules: the
pool from which `parse_paths` results are drawn. -/
def includeJoin (fs : FS) (rules : List String) : List String :=
  ((rules.filter (fun r => !pass_path r)).map (ruleMatches fs)).flatten

/-- A tiny concrete filesystem used by counterexamples and witnesses:
no path passes the `is_file` check, and the pattern `"a"` globs to the
single path `"p"` (e.g. a file named `a` somewhere below the root, with
no file literally at the relative path `a`). -/
def fsC : FS :=
  { is_file := fun _ => false
    rglob := fun s => if s = "a" then ["p"] else [] }

/-! ## Theorems -/

/-! ### IntervalParser lemmas -/

theorem foldl_piStep_digits (ds : List Char) (h : ∀ c ∈ ds, c.isDigit = true) :
    ∀ (d : List Char) (r : Nat), ds.foldl piStep (d, r) = (d ++ ds, r) := by
  induction ds with
  | nil => intro d r; simp
  | cons c cs ih =>
    intro d r
    have hc : c.isDigit = true := h c (by simp)
    have hcs : ∀ x ∈ cs, x.isDigit = true := fun x hx => h x (by simp [hx])
    simp only [List.foldl_cons, piStep, hc, if_true]
    rw [ih hcs (d ++ [c]) r]
    simp

theorem timeMap_unit_not_digit (u : Char) (hu : (timeMap u).isSome = true) :
    u.isDigit = false := by
  unfold timeMap at hu
  split_ifs at hu with h1 h2 h3 h4
  · subst h1; decide
  · subst h2; decide
  · subst h3; decide
  · subst h4; decide
  · simp at hu

theorem piStep_unit (d : List Char) (r : Nat) (u : Char) (hu : (timeMap u).isSome = true) :
    piStep (d, r) u = ([], r + digitVal d * (timeMap u).getD 1) := by
  obtain ⟨k, hk⟩ := Option.isSome_iff_exists.1 hu
  simp [piStep, timeMap_unit_not_digit u hu, hk]

theorem foldl_piStep_termChars (t : Term) (ht : TermWF t) (r : Nat) :
    (termChars t).foldl piStep ([], r) = ([], r + termVal t) := by
  unfold termChars
  rw [List.foldl_append, foldl_piStep_digits t.digits ht.1 [] r]
  simp only [List.nil_append, List.foldl_cons, List.foldl_nil]
  rw [piStep_unit _ _ _ ht.2]
  rfl

theorem foldl_piStep_joinTerms (ts : List Term) (h : ∀ t ∈ ts, TermWF t) :
    ∀ r : Nat, (joinTerms ts).foldl piStep ([], r) = ([], r + sumTermVals ts) := by
  induction ts with
  | nil => intro r; simp [joinTerms, sumTermVals]
  | cons t ts ih =>
    intro r
    have hjoin : joinTerms (t :: ts) = termChars t ++ joinTerms ts := by
      simp [joinTerms]
    rw [hjoin, List.foldl_append, foldl_piStep_termChars t (h t (by simp)) r,
      ih (fun x hx => h x (by simp [hx])) _]
    simp [sumTermVals, Nat.add_assoc]

theorem piStep_skip (st : List Char × Nat) (c : Char) (hc : relevantChar c = false) :
    piStep st c = st := by
  obtain ⟨h1, h2⟩ : c.isDigit = false ∧ (timeMap c).isSome = false := by
    simpa [relevantChar] using hc
  have hnone : timeMap c = none := Option.not_isSome_iff_eq_none.1 (by simp [h2])
  cases st with
  | mk d r => simp [piStep, h1, hnone]

theorem foldl_piStep_filter (cs : List Char) :
    ∀ st : List Char × Nat, cs.foldl piStep st = (cs.filter relevantChar).foldl piStep st := by
  induction cs with
  | nil => intro st; rfl
  | cons c cs ih =>
    intro st
    by_cases hc : relevantChar c = true
    · simp only [List.filter_cons, hc, if_true, List.foldl_cons]
      exact ih _
    · have hc' : relevantChar c = false := by simpa using hc
      simp only [List.filter_cons, hc', List.foldl_cons, piStep_skip st c hc', Bool.false_eq_true,
        if_false]
      exact ih _

theorem parse_interval_chars_terms (ts : List Term) (tail : List Char)
    (hts : ∀ t ∈ ts, TermWF t) (htail : ∀ c ∈ tail, c.isDigit = true) :
    parse_interval_chars (joinTerms ts ++ tail) =
      sumTermVals ts + (if tail.isEmpty then 0 else digitVal tail) := by
  unfold parse_interval_chars
  rw [List.append_assoc, List.foldl_append, foldl_piStep_joinTerms ts hts 0,
    List.foldl_append, foldl_piStep_digits tail htail _ _]
  have hsp : piStep (([] : List Char) ++ tail, 0 + sumTermVals ts) ' ' =
      (([] : List Char) ++ tail, 0 + sumTermVals ts) :=
    piStep_skip _ ' ' (by decide)
  simp only [List.foldl_cons, List.foldl_nil, hsp]
  cases tail with
  | nil => simp [finishParse]
  | cons c cs => simp [finishParse, Nat.add_comm]

theorem parse_interval_chars_joinTerms (ts : List Term) (h : ∀ t ∈ ts, TermWF t) :
    parse_interval_chars (joinTerms ts) = sumTermVals ts := by
  have := parse_interval_chars_terms ts [] h (by simp)
  simpa using this

theorem string_data_append (a b : String) : (a ++ b).data = a.data ++ b.data := rfl

/-- **C8.** The interval parser maps each unit term (optional digit run
followed by a unit character with `s=1`, `m=60`, `h=3600`, `d=86400`,
omitted digit run defaulting to 1) to its product and sums all terms; a
trailing digit run at end of input is treated as raw seconds; every
character that is neither a digit nor a unit character is skipped; and
`parse("2d")=172800`, `parse("1h30m")=5400`, `parse("d")=86400`,
`parse("")=0`.  The return type `Nat` makes the result non-negative. -/
theorem parse_interval_spec :
    (∀ (ts : List Term) (tail : List Char), (∀ t ∈ ts, TermWF t) →
      (∀ c ∈ tail, c.isDigit = true) →
      parse_interval_chars (joinTerms ts ++ tail) =
        sumTermVals ts + (if tail.isEmpty then 0 else digitVal tail)) ∧
    (∀ s : String, parse_interval s = parse_interval_chars (s.data.filter relevantChar)) ∧
    parse_interval "2d" = 172800 ∧ parse_interval "1h30m" = 5400 ∧
    parse_interval "d" = 86400 ∧ parse_interval "" = 0 := by
  refine ⟨parse_interval_chars_terms, ?_, by decide, by decide, by decide, by decide⟩
  intro s
  unfold parse_interval parse_interval_chars
  rw [List.foldl_append, List.foldl_append, foldl_piStep_filter s.data]

/-- Witness for C8: a two-term string with a trailing digit run,
`"1h30m45"`, evaluates to `3600 + 1800 + 45`. -/
theorem parse_interval_spec_witness :
    parse_interval_chars (joinTerms [⟨['1'], 'h'⟩, ⟨['3', '0'], 'm'⟩] ++ ['4', '5']) = 5445 := by
  rw [parse_interval_spec.1 [⟨['1'], 'h'⟩, ⟨['3', '0'], 'm'⟩] ['4', '5'] (by decide) (by decide)]
  decide

/-- **C9.** For complete unit terms `a` and `b`, the interval parser is
additive over concatenation: `parse(a ++ b) = parse(a) + parse(b)`. -/
theorem parse_interval_additive (a b : String) (ha : IsTerm a) (hb : IsTerm b) :
    parse_interval (a ++ b) = parse_interval a + parse_interval b := by
  obtain ⟨ta, hta, hda⟩ := ha
  obtain ⟨tb, htb, hdb⟩ := hb
  unfold parse_interval
  rw [string_data_append, hda, hdb]
  have h1 : termChars ta ++ termChars tb = joinTerms [ta, tb] := by
    simp [joinTerms]
  have h2 : termChars ta = joinTerms [ta] := by simp [joinTerms]
  have h3 : termChars tb = joinTerms [tb] := by simp [joinTerms]
  rw [h1, h2, h3,
    parse_interval_chars_joinTerms [ta, tb] (by simp [hta, htb]),
    parse_interval_chars_joinTerms [ta] (by simp [hta]),
    parse_interval_chars_joinTerms [tb] (by simp [htb])]
  simp [sumTermVals]

/-- Witness for C9: `parse("1h" ++ "30m") = parse("1h") + parse("30m")`. -/
theorem parse_interval_additive_witness :
    parse_interval ("1h" ++ "30m") = parse_interval "1h" + parse_interval "30m" :=
  parse_interval_additive "1h" "30m"
    ⟨⟨['1'], 'h'⟩, by decide, by decide⟩
    ⟨⟨['3', '0'], 'm'⟩, by decide, by decide⟩

/-! ### `format_file_name` lemmas -/

theorem foldl_replaceChar (bs : List Char) :
    ∀ cs : List Char, bs.foldl replaceChar cs = cs.map (chainSubst bs) := by
  induction bs with
  | nil =>
    intro cs
    rw [show chainSubst [] = fun x : Char => x from funext fun x => rfl]
    simp
  | cons b bs ih =>
    intro cs
    simp only [List.foldl_cons]
    rw [ih (replaceChar cs b)]
    unfold replaceChar
    rw [List.map_map]
    rfl

theorem chainSubst_badChars (x : Char) : chainSubst badChars x = sanitize x := by
  by_cases hx : x ∈ badChars
  · fin_cases hx <;> decide
  · have h9 : ¬(x = '/' ∨ x = '\\' ∨ x = ':' ∨ x = '*' ∨ x = '?' ∨ x = '"' ∨ x = '|' ∨
        x = '<' ∨ x = '>') := by
      simpa [badChars] using hx
    push_neg at h9
    obtain ⟨h1, h2, h3, h4, h5, h6, h7, h8, h9'⟩ := h9
    simp [chainSubst, badChars, sanitize, hx, h1, h2, h3, h4, h5, h6, h7, h8, h9']

theorem format_file_name_data (s : String) :
    (format_file_name s).data = s.data.map sanitize := by
  unfold format_file_name
  show badChars.foldl replaceChar s.data = s.data.map sanitize
  rw [foldl_replaceChar, show chainSubst badChars = sanitize from funext chainSubst_badChars]

theorem sanitize_idem (x : Char) : sanitize (sanitize x) = sanitize x := by
  by_cases h : x ∈ badChars
  · have h1 : sanitize x = '_' := by unfold sanitize; exact if_pos h
    rw [h1]
    decide
  · have h1 : sanitize x = x := by unfold sanitize; exact if_neg h
    rw [h1]
    exact h1

theorem sanitize_not_bad (x : Char) : sanitize x ∉ badChars := by
  by_cases h : x ∈ badChars
  · have h1 : sanitize x = '_' := by unfold sanitize; exact if_pos h
    rw [h1]
    decide
  · have h1 : sanitize x = x := by unfold sanitize; exact if_neg h
    rw [h1]
    exact h

/-- **C10.** The archive-name sanitizer is idempotent, and its output
contains none of the nine reserved characters. -/
theorem format_file_name_spec (s : String) :
    format_file_name (format_file_name s) = format_file_name s ∧
    (format_file_name s).data.all (fun c => decide (c ∉ badChars)) = true := by
  constructor
  · have h1 : (format_file_name (format_file_name s)).data = (format_file_name s).data := by
      rw [format_file_name_data, format_file_name_data, List.map_map]
      exact List.map_congr_left fun x _ => sanitize_idem x
    cases hs : format_file_name (format_file_name s) with
    | mk l =>
      cases ht : format_file_name s with
      | mk m =>
        have : l = m := by
          have := h1
          rw [hs, ht] at this
          exact this
        rw [this]
  · rw [List.all_eq_true]
    intro c hc
    rw [format_file_name_data] at hc
    obtain ⟨x, _, rfl⟩ := List.mem_map.1 hc
    exact decide_eq_true (sanitize_not_bad x)

/-! ### BackupCoordinator theorems -/

/-- **C1 (code bug).** The completion and packaging-exception exits of
`create_backup` issue `save-on` and release the single-flight lock exactly
once, but the save-acknowledgment-timeout exit — which did enter the run
and issued `save-off` — issues no `save-on` and performs no release: its
`return` precedes the `try`/`finally` block, leaving the host's automatic
saving disabled and the lock held. -/
theorem create_backup_timeout_leaks :
    (create_backup false true true true true).saveOn = 1 ∧
    (create_backup false true true true true).lockReleased = 1 ∧
    (create_backup false true true true false).saveOn = 1 ∧
    (create_backup false true true true false).lockReleased = 1 ∧
    (create_backup false true true false true).enteredRun = true ∧
    (create_backup false true true false true).saveOff = 1 ∧
    (create_backup false true true false true).saveOn = 0 ∧
    (create_backup false true true false true).lockReleased = 0 := by
  decide

/-- **C2 (code bug).** A manual invocation (`source` present) while
`_backup_ing` is set is rejected with the "already running" reply and
changes nothing; but a scheduled invocation (`source = None`) under the
same held guard is *not* rejected: the guard test is
`if self._backup_ing and source:`, so the scheduled run proceeds, issues
`save-off` and clears the acknowledgment event. -/
theorem create_backup_scheduled_bypasses_guard :
    create_backup true true true true true =
      { sentAlreadyRunning := true, enteredRun := false, saveOff := 0, saveOn := 0,
        eventCleared := false, lockReleased := 0, backupIngFinal := true,
        outcome := .rejected } ∧
    (create_backup true true false true true).sentAlreadyRunning = false ∧
    (create_backup true true false true true).enteredRun = true ∧
    (create_backup true true false true true).saveOff = 1 ∧
    (create_backup true true false true true).eventCleared = true := by
  decide

/-- **C5 (code bug).** When the initially computed destination path
already exists, the collision loop of `package_zip` never terminates, for
any amount of fuel: the disambiguated `path.with_name(...)` value is
discarded, so `path` — and hence `path.exists()` — never changes.  When
the path does not exist the loop exits immediately with the original
path. -/
theorem collisionLoop_never_terminates :
    (∀ fuel index, collisionLoop fuel (fun _ => true) "backup.zip" index = none) ∧
    collisionLoop 1 (fun _ => false) "backup.zip" 1 = some ("backup.zip", 1) := by
  refine ⟨?_, rfl⟩
  intro fuel
  induction fuel with
  | zero => intro index; rfl
  | succ n ih =>
    intro index
    simpa [collisionLoop] using ih (index + 1)

/-! ### Throttled progress callback theorems -/

/-- **C7 counterexample.** At `total = 1`, `done = 1` (allowed by the
claim's range `total ≥ 1`, `1 ≤ done ≤ total`), the callback does not
evaluate without raising: `int(1 / 8) = 0`, so `now % 0` raises
`ZeroDivisionError` (modelled by `none`). -/
theorem send_now_raises_on_small_total :
    send_now 1 1 = none ∧ ¬∃ b : Bool, send_now 1 1 = some b := by
  decide

/-- **C7 (amended).** For `total ≥ 8` the throttled callback evaluates
without raising and emits exactly when `done` is a multiple of
`total / 8` (floor division) or `done = total`; for `1 ≤ total < 8` it
raises `ZeroDivisionError` instead. -/
theorem send_now_throttle (total done : Nat) (h : 8 ≤ total) :
    ∃ b : Bool, send_now total done = some b ∧
      (b = true ↔ (done % (total / 8) = 0 ∨ done = total)) := by
  have h8 : 0 < total / 8 := (Nat.one_le_div_iff (by norm_num)).2 h
  refine ⟨(done % (total / 8) == 0 || total == done), ?_, ?_⟩
  · unfold send_now
    rw [if_neg (Nat.pos_iff_ne_zero.1 h8)]
  · constructor
    · intro hb
      rcases Bool.or_eq_true_iff.1 hb with h1 | h1
      · exact Or.inl (Nat.beq_eq_true_eq _ _ ▸ h1)
      · exact Or.inr ((Nat.beq_eq_true_eq _ _ ▸ h1) : total = done).symm
    · intro hor
      rcases hor with h1 | h1
      · exact Bool.or_eq_true_iff.2 (Or.inl (by simpa using h1))
      · exact Bool.or_eq_true_iff.2 (Or.inr (by simp [h1]))

/-- Witness for the amended C7: at `total = 16`, `done = 4` the callback
returns and emits (4 is a multiple of 2). -/
theorem send_now_throttle_witness :
    ∃ b : Bool, send_now 16 4 = some b ∧ (b = true ↔ (4 % (16 / 8) = 0 ∨ 4 = 16)) :=
  send_now_throttle 16 4 (by decide)

/-! ### PathSelector theorems -/

theorem foldl_erase_sublist (ms : List String) : ∀ A : List String,
    List.Sublist (ms.foldl List.erase A) A := by
  induction ms with
  | nil => intro A; exact List.Sublist.refl A
  | cons m ms ih =>
    intro A
    rw [List.foldl_cons]
    exact (ih (A.erase m)).trans (List.erase_sublist m A)

theorem count_foldl_erase_le (p : String) (ms : List String) : ∀ A : List String,
    (ms.foldl List.erase A).count p ≤ A.count p := by
  induction ms with
  | nil => intro A; exact Nat.le_refl _
  | cons m ms ih =>
    intro A
    rw [List.foldl_cons]
    refine (ih (A.erase m)).trans ?_
    by_cases hpm : p = m
    · subst hpm
      rw [List.count_erase_self]
      omega
    · rw [(List.count_erase_of_ne hpm A)]

theorem count_foldl_erase_zero (p : String) (ms : List String) : ∀ A : List String,
    p ∈ ms → A.count p ≤ 1 → (ms.foldl List.erase A).count p = 0 := by
  induction ms with
  | nil => intro A h _; simp at h
  | cons m ms ih =>
    intro A hmem hcount
    rw [List.foldl_cons]
    by_cases hpm : p = m
    · subst hpm
      have h0 : (A.erase p).count p = 0 := by
        rw [List.count_erase_self]
        omega
      have hle := count_foldl_erase_le p ms (A.erase p)
      omega
    · have hmem' : p ∈ ms := by
        rcases List.mem_cons.1 hmem with h | h
        · exact absurd h hpm
        · exact h
      have hc : (A.erase m).count p = A.count p :=
        (List.count_erase_of_ne hpm A)
      exact ih (A.erase m) hmem' (by omega)

theorem not_mem_foldl_applyRule (fs : FS) (p : String) (post : List String) :
    ∀ A : List String, p ∉ A →
      (∀ q ∈ post, pass_path q = true ∨ p ∉ ruleMatches fs q) →
      p ∉ post.foldl (applyRule fs) A := by
  induction post with
  | nil => intro A hA _; simpa using hA
  | cons q qs ih =>
    intro A hA hpost
    rw [List.foldl_cons]
    refine ih (applyRule fs A q) ?_ (fun x hx => hpost x (by simp [hx]))
    intro hmem
    unfold applyRule at hmem
    by_cases hq2 : pass_path q = true
    · rw [if_pos hq2] at hmem
      exact hA ((foldl_erase_sublist _ _).subset hmem)
    · rw [if_neg hq2] at hmem
      rcases List.mem_append.1 hmem with h | h
      · exact hA h
      · rcases hpost q (by simp) with h' | h'
        · exact hq2 h'
        · exact h' h

/-- **C3 counterexample.** Over a filesystem where pattern `"a"` globs to
the single path `"p"`, the rules `["a", "a", "!a"]` include `"p"` at
positions 0 and 1 and exclude it at position 2 — an exclude *after* the
includes — yet `"p"` is present in the final list: `paths.remove` deletes
only one of the two accumulated occurrences. -/
theorem parse_paths_exclude_after_include_cex :
    pass_path "a" = false ∧ "p" ∈ ruleMatches fsC "a" ∧
    pass_path "!a" = true ∧ "p" ∈ ruleMatches fsC "!a" ∧
    "p" ∈ parse_paths fsC ["a", "a", "!a"] := by
  refine ⟨rfl, ?_, rfl, ?_, ?_⟩
  · show "p" ∈ ["p"]
    simp
  · show "p" ∈ ["p"]
    simp
  · show "p" ∈ ["p"]
    simp

/-- **C3 (amended).** A path matched by an exclude rule at position `j` is
absent from the final list provided it occurs at most once in the list
accumulated before `j` (e.g. it was matched by at most one earlier include
rule — each exclude match removes only one occurrence) and no rule after
`j` is an include rule matching it again. -/
theorem parse_paths_exclude_wins (fs : FS) (pre post : List String) (r p : String)
    (hr : pass_path r = true) (hm : p ∈ ruleMatches fs r)
    (hcount : (parse_paths fs pre).count p ≤ 1)
    (hpost : ∀ q ∈ post, pass_path q = true ∨ p ∉ ruleMatches fs q) :
    p ∉ parse_paths fs (pre ++ r :: post) := by
  unfold parse_paths
  rw [List.foldl_append, List.foldl_cons]
  refine not_mem_foldl_applyRule fs p post _ ?_ hpost
  have happ : applyRule fs (List.foldl (applyRule fs) [] pre) r =
      (ruleMatches fs r).foldl List.erase (List.foldl (applyRule fs) [] pre) := by
    unfold applyRule
    rw [if_pos hr]
  rw [happ, ← List.count_eq_zero]
  exact count_foldl_erase_zero p _ _ hm hcount

/-- Witness for the amended C3: with `["a", "!a"]` (one include of `"p"`,
then an exclude), `"p"` is absent from the result. -/
theorem parse_paths_exclude_wins_witness : "p" ∉ parse_paths fsC ["a", "!a"] :=
  parse_paths_exclude_wins fsC ["a"] [] "!a" "p" rfl (by simp [show ruleMatches fsC "!a" = ["p"] from rfl])
    (by simp [show parse_paths fsC ["a"] = ["p"] from rfl]) (by simp)

theorem parse_paths_sublist_includeJoin (fs : FS) : ∀ (rules : List String) (A L : List String),
    List.Sublist A L →
    List.Sublist (rules.foldl (applyRule fs) A) (L ++ includeJoin fs rules) := by
  intro rules
  induction rules with
  | nil =>
    intro A L h
    simpa [includeJoin] using h
  | cons r rs ih =>
    intro A L h
    rw [List.foldl_cons]
    by_cases hr : pass_path r = true
    · have h1 : List.Sublist (applyRule fs A r) L := by
        unfold applyRule
        rw [if_pos hr]
        exact (foldl_erase_sublist _ _).trans h
      have h3 : includeJoin fs (r :: rs) = includeJoin fs rs := by
        simp [includeJoin, List.filter_cons, hr]
      rw [h3]
      exact ih (applyRule fs A r) L h1
    · have h1 : List.Sublist (applyRule fs A r) (L ++ ruleMatches fs r) := by
        unfold applyRule
        rw [if_neg hr]
        exact h.append (List.Sublist.refl _)
      have h3 : includeJoin fs (r :: rs) = ruleMatches fs r ++ includeJoin fs rs := by
        simp [includeJoin, List.filter_cons, hr]
      rw [h3, ← List.append_assoc]
      exact ih (applyRule fs A r) (L ++ ruleMatches fs r) h1

/-- **C4 counterexample.** Over the same filesystem, the rules
`["a", "a"]` — two include rules matching the same path — produce the list
`["p", "p"]`: an include rule appends every match unconditionally, with no
already-present check, so the result contains duplicates. -/
theorem parse_paths_duplicates_cex :
    parse_paths fsC ["a", "a"] = ["p", "p"] ∧ ¬(parse_paths fsC ["a", "a"]).Nodup := by
  constructor
  · rfl
  · show ¬(["p", "p"] : List String).Nodup
    simp

/-- **C4 (amended).** The selector's result is a sublist of the
concatenated matches of its include rules; hence it has no duplicates
whenever no path is produced twice across the include rules' matches
(in particular when no two include rules match a common path). -/
theorem parse_paths_nodup (fs : FS) (rules : List String)
    (h : (includeJoin fs rules).Nodup) : (parse_paths fs rules).Nodup :=
  (List.Sublist.nodup
    (by simpa using parse_paths_sublist_includeJoin fs rules [] [] (List.Sublist.refl [])) h)

/-- Witness for the amended C4: with `["a", "!a"]` the include matches are
`["p"]` (duplicate-free), and the result is duplicate-free. -/
theorem parse_paths_nodup_witness : (parse_paths fsC ["a", "!a"]).Nodup :=
  parse_paths_nodup fsC ["a", "!a"] (by simp [show includeJoin fsC ["a", "!a"] = ["p"] from rfl])

/-! ### ArchiveBuilder loop theorems -/

/-- **C6 counterexample.** With two addable files, a callback that raises
on its first invocation aborts the build after one file: the run escapes
as an exception with the archive unclosed and only file 0 written, whereas
the same file list without a callback completes with both files written
and the archive closed.  The callback thus aborts the build, changes the
archive contents, and prevents the close. -/
theorem package_zip_callback_abort_cex :
    (∃ st : ZipState, package_zip_loop [.ok, .ok] (some fun _ _ => false) = .error st ∧
      st.closed = false ∧ st.entries = [0] ∧ st.cbCalls = [(2, 1)]) ∧
    (∃ st : ZipState, package_zip_loop [.ok, .ok] none = .ok st ∧
      st.closed = true ∧ st.entries = [0, 1]) :=
  ⟨⟨_, rfl, rfl, rfl, rfl⟩, ⟨_, rfl, rfl, rfl⟩⟩

theorem zipGo_none_spec (allFiles : Nat) (rest : List FileRes) : ∀ (i : Nat) (st : ZipState),
    ∃ st' : ZipState, zipGo allFiles none i rest st = .ok st' ∧
      st'.entries = st.entries ++ entriesOf i rest ∧ st'.closed = true ∧
      st'.cbCalls = st.cbCalls := by
  induction rest with
  | nil =>
    intro i st
    exact ⟨_, rfl, by simp [entriesOf], rfl, rfl⟩
  | cons r rs ih =>
    intro i st
    cases r with
    | ok =>
      obtain ⟨st', h1, h2, h3, h4⟩ := ih (i + 1) { st with entries := st.entries ++ [i] }
      exact ⟨st', h1, by simp [h2, entriesOf], h3, h4⟩
    | permError =>
      obtain ⟨st', h1, h2, h3, h4⟩ := ih (i + 1) { st with permWarnings := st.permWarnings ++ [i] }
      exact ⟨st', h1, by simp [h2, entriesOf], h3, h4⟩
    | otherError =>
      obtain ⟨st', h1, h2, h3, h4⟩ := ih (i + 1) { st with logged := st.logged ++ [i] }
      exact ⟨st', h1, by simp [h2, entriesOf], h3, h4⟩

theorem zipGo_some_spec (allFiles : Nat) (f : Nat → Nat → Bool) (hf : ∀ a n, f a n = true)
    (rest : List FileRes) : ∀ (i : Nat) (st : ZipState),
    ∃ st' : ZipState, zipGo allFiles (some f) i rest st = .ok st' ∧
      st'.entries = st.entries ++ entriesOf i rest ∧ st'.closed = true ∧
      st'.cbCalls = st.cbCalls ++ callsOf allFiles i rest := by
  induction rest with
  | nil =>
    intro i st
    exact ⟨_, rfl, by simp [entriesOf], rfl, by simp [callsOf]⟩
  | cons r rs ih =>
    intro i st
    cases r with
    | ok =>
      obtain ⟨st', h1, h2, h3, h4⟩ := ih (i + 1)
        { st with entries := st.entries ++ [i], cbCalls := st.cbCalls ++ [(allFiles, i + 1)] }
      refine ⟨st', ?_, by simp [h2, entriesOf], h3, by simp [h4, callsOf]⟩
      show (if f allFiles (i + 1) then _ else _) = _
      rw [hf allFiles (i + 1)]
      exact h1
    | permError =>
      obtain ⟨st', h1, h2, h3, h4⟩ := ih (i + 1)
        { st with permWarnings := st.permWarnings ++ [i],
                  cbCalls := st.cbCalls ++ [(allFiles, i + 1)] }
      refine ⟨st', ?_, by simp [h2, entriesOf], h3, by simp [h4, callsOf]⟩
      show (if f allFiles (i + 1) then _ else _) = _
      rw [hf allFiles (i + 1)]
      exact h1
    | otherError =>
      obtain ⟨st', h1, h2, h3, h4⟩ := ih (i + 1)
        { st with logged := st.logged ++ [i], cbCalls := st.cbCalls ++ [(allFiles, i + 1)] }
      refine ⟨st', ?_, by simp [h2, entriesOf], h3, by simp [h4, callsOf]⟩
      show (if f allFiles (i + 1) then _ else _) = _
      rw [hf allFiles (i + 1)]
      exact h1

/-- **C6 (amended).** A progress callback that never raises is invoked
once per attempted file with arguments `(total, index + 1)`, does not
alter the archive contents (the entries equal those of a run without a
callback), and the archive is closed; but a callback that raises
propagates out of the loop, aborting the build, omitting later files and
skipping the close (see the counterexample). -/
theorem package_zip_loop_callback_safe (files : List FileRes) (f : Nat → Nat → Bool)
    (hf : ∀ a n, f a n = true) :
    ∃ st st' : ZipState, package_zip_loop files (some f) = .ok st ∧
      package_zip_loop files none = .ok st' ∧
      st.entries = st'.entries ∧ st.closed = true ∧ st'.closed = true ∧
      st.cbCalls = callsOf files.length 0 files ∧ st'.cbCalls = [] := by
  obtain ⟨st, h1, h2, h3, h4⟩ := zipGo_some_spec files.length f hf files 0
    { entries := [], permWarnings := [], logged := [], cbCalls := [], closed := false }
  obtain ⟨st', g1, g2, g3, g4⟩ := zipGo_none_spec files.length files 0
    { entries := [], permWarnings := [], logged := [], cbCalls := [], closed := false }
  refine ⟨st, st', h1, g1, ?_, h3, g3, ?_, ?_⟩
  · rw [h2, g2]
  · simpa using h4
  · simpa using g4

/-- Witness for the amended C6: one addable and one permission-failing
file with a callback that always returns normally. -/
theorem package_zip_loop_callback_safe_witness :
    ∃ st st' : ZipState,
      package_zip_loop [.ok, .permError] (some fun _ _ => true) = .ok st ∧
      package_zip_loop [.ok, .permError] none = .ok st' ∧
      st.entries = st'.entries ∧ st.closed = true ∧ st'.closed = true ∧
      st.cbCalls = callsOf ([FileRes.ok, FileRes.permError]).length 0 [.ok, .permError] ∧
      st'.cbCalls = [] :=
  package_zip_loop_callback_safe [.ok, .permError] (fun _ _ => true) (fun _ _ => rfl)

